import Mathlib

/-!
Verification of the FileNavigation Sublime Text plugin (`FileNavigation.py`).

The development shallowly embeds the plugin's pure logic:
* POSIX path-string functions (`os.path.normpath`, `dirname`, `basename`,
  `splitext`, `join`) are re-implemented over `List Char` / `String`
  following the CPython `posixpath` sources (ASCII case mapping).
* The filesystem is abstracted as `FS`: `os.path.isfile`/`isdir` answers,
  `os.stat` results (a `none` stat models an `OSError`, which is what
  `os.path.samefile` compares and raises on), the result list of
  `glob.glob(os.path.join(dir, '*'))`, and the working directory.
* The host editor (Sublime) window operations are recorded as an `Effect`
  trace; the helper singleton's fields become the record `HelperState`.
-/

deriving instance DecidableEq for Except

namespace FileNav

/-! ## POSIX path model (character-list level) -/

/-- Python `str.rfind(c)`: index of the last occurrence of `c`, `-1` if absent. -/
def rfindC (c : Char) (l : List Char) : Int :=
  (l.foldl (fun (p : Int × Int) x => (p.1 + 1, if x = c then p.1 else p.2)) (0, -1)).2

/-- The number of initial slashes `posixpath.normpath` preserves:
two slashes are kept as two, one or three-plus collapse to one. -/
def slashesOf (p : List Char) : Nat :=
  if p.take 2 = ['/', '/'] ∧ p.take 3 ≠ ['/', '/', '/'] then 2
  else if p.take 1 = ['/'] then 1
  else 0

/-- One step of `posixpath.normpath`'s component loop (`comps` fold):
skip `''`/`'.'`, keep `..` at the front of a relative path or after another
kept `..`, otherwise let `..` cancel the previous component. -/
def normStep (slashes : Nat) (acc : List (List Char)) (comp : List Char) :
    List (List Char) :=
  if comp = [] ∨ comp = ['.'] then acc
  else if comp ≠ ['.', '.'] ∨ (slashes = 0 ∧ acc = []) ∨ acc.getLast? = some ['.', '.'] then
    acc ++ [comp]
  else if acc ≠ [] then acc.dropLast
  else acc

/-- `posixpath.normpath` on a character list. Python's `path.split('/')`
is `List.splitOn '/'` (same equations: empty list splits to `[[]]`, a
separator prepends an empty component, any other character extends the
first component). -/
def normpathL (p : List Char) : List Char :=
  if p = [] then ['.']
  else
    let slashes := slashesOf p
    let newComps := (p.splitOn '/').foldl (normStep slashes) []
    let joined := List.replicate slashes '/' ++ List.intercalate ['/'] newComps
    if joined = [] then ['.'] else joined

/-- `posixpath.dirname` on a character list: everything up to the last `/`,
with trailing slashes stripped unless the head is all slashes. -/
def dirnameL (l : List Char) : List Char :=
  let i := (rfindC '/' l + 1).toNat
  let head := l.take i
  if head ≠ [] ∧ head.any (· ≠ '/') then (head.reverse.dropWhile (· = '/')).reverse
  else head

/-- `posixpath.basename` on a character list: everything after the last `/`. -/
def basenameL (l : List Char) : List Char :=
  l.drop (rfindC '/' l + 1).toNat

/-- The extension component of `posixpath.splitext`: the suffix from the last
dot, provided that dot comes after the last separator and the name part
before it is not made of dots only. -/
def splitextExtL (l : List Char) : List Char :=
  let sep := rfindC '/' l
  let dot := rfindC '.' l
  if dot > sep ∧ (((l.drop (sep + 1).toNat).take (dot - sep - 1).toNat).any (· ≠ '.')) then
    l.drop dot.toNat
  else []

/-! ## POSIX path model (string wrappers) -/

def normpath (s : String) : String := ⟨normpathL s.data⟩

def dirnameS (s : String) : String := ⟨dirnameL s.data⟩

def basenameS (s : String) : String := ⟨basenameL s.data⟩

def splitextExtS (s : String) : String := ⟨splitextExtL s.data⟩

/-- `os.pardir` on POSIX. -/
def pardir : String := ".."

/-- Python `s.endswith('/')`. -/
def strEndsSlash (s : String) : Bool := s.data.getLast? = some '/'

/-- Python `s.startswith('/')` (also `posixpath.isabs`). -/
def strStartsSlash (s : String) : Bool := s.data.head? = some '/'

/-- `posixpath.join` restricted to two arguments, as used by the plugin. -/
def joinPath (a b : String) : String :=
  if strStartsSlash b then b
  else if a = "" ∨ strEndsSlash a then a ++ b
  else a ++ "/" ++ b

/-- ASCII `str.lower`, the case mapping relevant to the plugin's patterns. -/
def lowerS (s : String) : String := ⟨s.data.map Char.toLower⟩

/-- The pattern the plugin compares against `excluded_extensions`:
`'*' + os.path.splitext(file_path)[1].lower()`. -/
def extPat (fp : String) : String := "*" ++ lowerS (splitextExtS fp)

/-! ## Filesystem abstraction -/

/-- Abstract filesystem answers consumed by the plugin:
`isfile`/`isdir` are `os.path.isfile`/`os.path.isdir` (false on any stat
error, as in CPython); `stat p = some ino` is a successful `os.stat` with
file identity `ino`, `none` models `os.stat` raising `OSError`;
`glob d` is the result list of `glob.glob(os.path.join(d, '*'))`;
`cwd` is `os.getcwd()`. -/
structure FS where
  isfile : String → Bool
  isdir : String → Bool
  stat : String → Option Nat
  glob : String → List String
  cwd : String

/-- `posixpath.abspath`: prepend the working directory when relative,
then normalize. -/
def abspathFS (fs : FS) (p : String) : String :=
  if strStartsSlash p then normpath p else normpath (joinPath fs.cwd p)

/-- `FileNavigationHelper.get_dir_from_path`. -/
def get_dir_from_path (fs : FS) (current_file : String) : String :=
  normpath (if fs.isfile current_file then dirnameS current_file else current_file)

/-- `FileNavigationHelper.is_same_file`: `os.path.samefile` (stat identity
comparison) with `OSError` caught and turned into `False`. -/
def is_same_file (fs : FS) (file_path other_file_path : String) : Bool :=
  match fs.stat file_path, fs.stat other_file_path with
  | some i, some j => i = j
  | _, _ => false

/-- CPython `os.path.exists`: `os.stat` with `OSError` swallowed into
`False`; it never raises. -/
def os_path_exists (fs : FS) (p : String) : Bool := (fs.stat p).isSome

/-- `FileNavigationHelper.skip_file`. The source initializes `skip = False`,
probes `os.path.exists` inside `try`, and only sets `skip = True` in an
`except OSError` handler; since `os.path.exists` swallows `OSError` itself,
that handler is unreachable and the function returns `False` on every path. -/
def skip_file (fs : FS) (p : String) : Bool :=
  if os_path_exists fs p then false else false

/-- One run of the source's extension-exclusion pass from loop index `i`:
a Python `for` loop over `dir_listing` that calls
`dir_listing.remove(file_path)` on the list being iterated. The loop index
advances after a removal shifted the remaining elements, exactly as
CPython's list iterator does. The `fuel` argument only makes the recursion
structural; the loop runs at most `l.length` iterations since the index
grows and the list never does, so `excludeLoop` below supplies enough. -/
def excludeGo (excluded : List String) : Nat → Nat → List String → List String
  | 0, _, l => l
  | fuel + 1, i, l =>
    if h : i < l.length then
      if excluded.contains (extPat l[i]) then
        excludeGo excluded fuel (i + 1) (l.erase l[i])
      else
        excludeGo excluded fuel (i + 1) l
    else l

/-- The whole extension-exclusion pass of `get_listing` (lines 71-74). -/
def excludeLoop (excluded : List String) (l : List String) : List String :=
  excludeGo excluded l.length 0 l

/-- The `(label, target)` pair `get_listing` appends for a surviving child:
the label is the basename, suffixed with `/` for directories; the target is
`get_dir_from_path(file_path)`. -/
def mkEntry (fs : FS) (fp : String) : String × String :=
  (if fs.isdir fp then basenameS fp ++ "/" else basenameS fp, get_dir_from_path fs fp)

/-- The child-entry part of `get_listing`: each element of the
post-exclusion listing is skipped when `skip_file` says so or when it is
the same file as `current_file`, otherwise `mkEntry` is appended. -/
def childEntries (fs : FS) (current_file : String) (l : List String) :
    List (String × String) :=
  l.filterMap fun fp =>
    if skip_file fs fp then none
    else if is_same_file fs fp current_file then none
    else some (mkEntry fs fp)

/-- `FileNavigationHelper.get_listing` (the entry list stored under
`stack[current_file]`). `os.path.samefile(path, parent)` is called outside
any `try`, so a failing `os.stat` on either argument propagates out of
`get_listing`; that is the `Except.error` case. -/
def get_listing (fs : FS) (excluded : List String) (current_file : String) :
    Except Unit (List (String × String)) :=
  let path := get_dir_from_path fs current_file
  let dir_listing := excludeLoop excluded (fs.glob path)
  let parent := abspathFS fs (joinPath path pardir)
  match fs.stat path, fs.stat parent with
  | some a, some b =>
      Except.ok ((if a = b then [] else [(pardir, parent)]) ++
        childEntries fs current_file dir_listing)
  | _, _ => Except.error ()

/-! ## Session state and editor commands -/

/-- The mutable fields of the `FileNavigationHelper` singleton, plus the
`file_navigation_active` settings key that `set_plugin_visibility`
sets/erases (erased is modelled as `false`). `calling_view` is an opaque
view id; `calling_view_is_empty` is `None` before a session is tracked. -/
structure HelperState where
  preview_file_path : Option String
  calling_view : Option Nat
  calling_view_index : Int × Int
  calling_view_is_empty : Option Bool
  file_navigation_active : Bool
deriving DecidableEq

/-- Python truthiness of the `calling_view_is_empty` field
(`None` and `False` are falsy). -/
def pyTruthy : Option Bool → Bool
  | some true => true
  | _ => false

/-- Python truthiness test `not file_path` on an optional string
(`None` and `''` are falsy). -/
def strFalsy : Option String → Bool
  | none => true
  | some s => s = ""

/-- `FileNavigationHelper.set_plugin_visibility`. -/
def set_plugin_visibility (s : HelperState) (is_active : Bool) : HelperState :=
  { s with file_navigation_active := is_active }

/-- `FileNavigationHelper.set_preview`. -/
def set_preview (s : HelperState) (file_path : String) : HelperState :=
  set_plugin_visibility { s with preview_file_path := some file_path } true

/-- `FileNavigationHelper.reset`. Note the source leaves
`calling_view_index` untouched. -/
def reset (s : HelperState) : HelperState :=
  set_plugin_visibility
    { s with preview_file_path := none, calling_view := none,
             calling_view_is_empty := none } false

/-- `FileNavigationHelper.get_current_view_index`. -/
def get_current_view_index (s : HelperState) : Int × Int :=
  if pyTruthy s.calling_view_is_empty then (0, -1) else s.calling_view_index

/-- A Python exception escaping the plugin code. -/
inductive PyErr
  | attributeError
deriving DecidableEq

/-- The Sublime window surface used by `track_calling_view`:
`active_view()` returns `None` when the window has no views;
`view_file_name` is `View.file_name()` (`None` for unsaved buffers);
`get_view_index` and the view count are introspection answers. -/
structure SublimeWindow where
  active_view : Option Nat
  view_file_name : Nat → Option String
  get_view_index : Nat → Int × Int
  num_views : Nat

/-- `FileNavigationHelper.track_calling_view`. When `window.active_view()`
is `None`, the source immediately evaluates
`window.get_view_index(self.calling_view)` and
`self.calling_view.file_name()` on that `None`, so the call raises
`AttributeError` instead of returning; otherwise it records the origin
context and returns the active view's file name. -/
def track_calling_view (w : SublimeWindow) (s : HelperState) :
    Except PyErr (HelperState × Option String) :=
  match w.active_view with
  | none => Except.error PyErr.attributeError
  | some v =>
      Except.ok
        ({ s with calling_view := some v,
                  calling_view_index := w.get_view_index v,
                  calling_view_is_empty := some (w.num_views = 0) },
         w.view_file_name v)

/-- The start of `FileNavigationCommand.run`: track the calling view and
fall back to `os.getcwd()` when the returned file name is falsy. -/
def run_current_file (w : SublimeWindow) (s : HelperState) (cwd : String) :
    Except PyErr (HelperState × String) :=
  match track_calling_view w s with
  | Except.error e => Except.error e
  | Except.ok (s', fp) => Except.ok (s', if strFalsy fp then cwd else fp.getD cwd)

/-- Host-editor operations the plugin requests, in order. `openFile`'s flag
records whether `sublime.TRANSIENT` was passed; `scheduleNavigate` is the
`sublime.set_timeout_async(lambda: self.navigate(...), 0)` continuation. -/
inductive Effect
  | openFile (path : String) (transient : Bool)
  | setViewIndex (group idx : Int)
  | focusView (v : Option Nat)
  | closeFile
  | scheduleNavigate (path : String)
deriving DecidableEq

/-- `FileNavigationHelper.show_calling_view`. -/
def show_calling_view (s : HelperState) : List Effect :=
  if pyTruthy s.calling_view_is_empty then [Effect.closeFile]
  else [Effect.focusView s.calling_view]

/-- `FileNavigationCommand.get_path`. -/
def get_path (stack_entry : String × String) : String :=
  if stack_entry.1 = pardir ∨ strEndsSlash stack_entry.1 then stack_entry.2
  else joinPath stack_entry.2 stack_entry.1

/-- `FileNavigationCommand.open_selected_file`, as new helper state plus
the host-effect trace. `entries` is `self.stack[path]`; a negative index
is the quick panel's cancel. Out-of-range non-negative indices (which the
quick panel never delivers) index with a default instead of modelling
Python's `IndexError`. -/
def open_selected_file (fs : FS) (s : HelperState) (entries : List (String × String))
    (selected_index : Int) : HelperState × List Effect :=
  if selected_index < 0 then
    (reset s, show_calling_view s)
  else
    let file_path := get_path (entries.getD selected_index.toNat ("", ""))
    if fs.isfile file_path then
      (reset s, [Effect.openFile file_path false])
    else
      (s, show_calling_view s ++ [Effect.scheduleNavigate file_path])

/-- The Sublime window surface used by `QuickOpenFileNavigationCommand`:
`find_open_file` gives the view currently holding a file (if any),
`transient_view_in_group` the transient view of a group. -/
structure QWindow where
  find_open_file : String → Option Nat
  active_group : Nat
  transient_view_in_group : Nat → Option Nat

/-- `QuickOpenFileNavigationCommand.run`: returns without effects unless
the stored preview path is truthy and an existing file; opens and
repositions only when the file is unopened or is exactly the active
group's transient view. The helper state is returned unchanged — the
command never mutates it. -/
def quick_open_run (fs : FS) (w : QWindow) (s : HelperState) :
    HelperState × List Effect :=
  match s.preview_file_path with
  | none => (s, [])
  | some fp =>
    if fp = "" then (s, [])
    else if fs.isfile fp then
      let view := w.find_open_file fp
      if view = w.transient_view_in_group w.active_group ∨ view = none then
        (s, [Effect.openFile fp false,
             Effect.setViewIndex (get_current_view_index s).1
               ((get_current_view_index s).2 + 1)])
      else (s, [])
    else (s, [])

/-! ## Concrete filesystem and window fixtures -/

/-- Fixture: directory `/d` holding the single file `/d/a.txt`. -/
def fsA : FS where
  isfile := fun p => p == "/d/a.txt"
  isdir := fun p => p == "/" || p == "/d"
  stat := fun p =>
    if p == "/" then some 0 else if p == "/d" then some 1
    else if p == "/d/a.txt" then some 2 else none
  glob := fun p => if p == "/d" then ["/d/a.txt"] else []
  cwd := "/"

/-- Fixture: `/d` holding `a.exe`, `b.exe`, `c.txt`, the two `.exe` files
adjacent in `glob` enumeration order. -/
def fsB : FS where
  isfile := fun p => p == "/d/a.exe" || p == "/d/b.exe" || p == "/d/c.txt"
  isdir := fun p => p == "/" || p == "/d"
  stat := fun p =>
    if p == "/" then some 0 else if p == "/d" then some 1
    else if p == "/d/a.exe" then some 2 else if p == "/d/b.exe" then some 3
    else if p == "/d/c.txt" then some 4 else none
  glob := fun p => if p == "/d" then ["/d/a.exe", "/d/b.exe", "/d/c.txt"] else []
  cwd := "/"

/-- Fixture: `/d` holding one child `/d/hidden` whose `os.stat` fails
(permission denied / broken link); `os.path.isfile`/`isdir` therefore
answer `False` for it. -/
def fsC : FS where
  isfile := fun _ => false
  isdir := fun p => p == "/" || p == "/d"
  stat := fun p => if p == "/" then some 0 else if p == "/d" then some 1 else none
  glob := fun p => if p == "/d" then ["/d/hidden"] else []
  cwd := "/"

/-- Fixture: `/d` holding files `a.txt`, `f.txt`, `z.txt`; used to compare
the listing for the file `/d/f.txt` with the listing for `/d`. -/
def fsD : FS where
  isfile := fun p => p == "/d/a.txt" || p == "/d/f.txt" || p == "/d/z.txt"
  isdir := fun p => p == "/" || p == "/d"
  stat := fun p =>
    if p == "/" then some 0 else if p == "/d" then some 1
    else if p == "/d/a.txt" then some 2 else if p == "/d/f.txt" then some 3
    else if p == "/d/z.txt" then some 4 else none
  glob := fun p => if p == "/d" then ["/d/a.txt", "/d/f.txt", "/d/z.txt"] else []
  cwd := "/"

/-- Fixture: a working directory holding a regular file `f`; the path
`"f/"` (trailing separator) makes `os.path.isfile` fail with `ENOTDIR`
and hence answer `False`, while `normpath` strips the slash. -/
def fsX : FS where
  isfile := fun p => p == "f"
  isdir := fun p => p == "/" || p == "."
  stat := fun p => if p == "/" then some 0 else if p == "." then some 1
    else if p == "f" then some 2 else none
  glob := fun _ => []
  cwd := "/"

/-- A Sublime window with no views open: `active_view()` is `None`. -/
def noTabsWin : SublimeWindow where
  active_view := none
  view_file_name := fun _ => none
  get_view_index := fun _ => (0, 0)
  num_views := 0

/-- A Sublime window whose single active view is an unsaved buffer
(`file_name()` is `None`). -/
def unsavedWin : SublimeWindow where
  active_view := some 7
  view_file_name := fun _ => none
  get_view_index := fun _ => (0, 0)
  num_views := 1

/-- The helper state as built by `__init__`/`reset`. -/
def initState : HelperState where
  preview_file_path := none
  calling_view := none
  calling_view_index := (0, 0)
  calling_view_is_empty := none
  file_navigation_active := false

/-- A mid-session helper state: origin view 5 at slot `(1, 3)`, a tracked
non-empty window, preview `/d/a.txt`. -/
def sessionState : HelperState where
  preview_file_path := some "/d/a.txt"
  calling_view := some 5
  calling_view_index := (1, 3)
  calling_view_is_empty := some false
  file_navigation_active := true

/-- A quick-open window where the preview file is not open anywhere. -/
def qWinA : QWindow where
  find_open_file := fun _ => none
  active_group := 0
  transient_view_in_group := fun _ => none

/-- Shape invariant of `normpath`'s component list after the `normStep`
fold: some number of leading `..` components (none when the path had
initial slashes) followed by components that are nonempty, not `.`, not
`..`; no component contains a separator. -/
def Shaped (slashes : Nat) (l : List (List Char)) : Prop :=
  (∃ m rest, l = List.replicate m ['.', '.'] ++ rest ∧ ['.', '.'] ∉ rest ∧
    (slashes ≠ 0 → m = 0)) ∧
  ∀ c ∈ l, c ≠ [] ∧ c ≠ ['.'] ∧ '/' ∉ c

/-! ## Lemmas: the path normalizer is idempotent -/

theorem splitSep_nosep (l : List Char) : ∀ c ∈ l.splitOn '/', '/' ∉ c := by
  induction l with
  | nil =>
    intro c hc
    simp only [List.splitOn_nil, List.mem_singleton] at hc
    simp [hc]
  | cons x xs ih =>
    intro c hc
    rw [List.splitOn, List.splitOnP_cons] at hc
    rw [List.splitOn] at ih
    by_cases hx : (x == '/') = true
    · rw [if_pos hx] at hc
      rcases List.mem_cons.mp hc with h | h
      · simp [h]
      · exact ih c h
    · rw [if_neg hx] at hc
      obtain ⟨h0, t0, ht⟩ : ∃ h0 t0, xs.splitOnP (· == '/') = h0 :: t0 := by
        cases h' : xs.splitOnP (· == '/') with
        | nil => exact absurd h' (List.splitOnP_ne_nil _ xs)
        | cons a b => exact ⟨a, b, rfl⟩
      rw [ht, List.modifyHead] at hc
      rcases List.mem_cons.mp hc with h | h
      · subst h
        intro hmem
        rcases List.mem_cons.mp hmem with h1 | h1
        · exact hx (by rw [h1]; exact beq_self_eq_true x)
        · exact ih h0 (ht ▸ List.mem_cons_self h0 t0) h1
      · exact ih c (ht ▸ List.mem_cons_of_mem h0 h)

theorem splitSep_replicate (k : Nat) (r : List Char) :
    (List.replicate k '/' ++ r).splitOn '/' = List.replicate k [] ++ r.splitOn '/' := by
  induction k with
  | zero => simp
  | succ n ih =>
    rw [List.replicate_succ, List.cons_append, List.splitOn, List.splitOnP_cons,
      if_pos (beq_self_eq_true '/'), List.replicate_succ, List.cons_append]
    rw [List.splitOn] at ih
    rw [ih]

theorem normStep_empty (k : Nat) (acc : List (List Char)) : normStep k acc [] = acc := by
  simp [normStep]

theorem foldl_normStep_rep_nil (k j : Nat) (acc : List (List Char)) :
    (List.replicate j ([] : List Char)).foldl (normStep k) acc = acc := by
  induction j with
  | zero => rfl
  | succ n ih => rw [List.replicate_succ, List.foldl_cons, normStep_empty, ih]

theorem foldl_normStep_plain (k : Nat) (l : List (List Char))
    (h : ∀ c ∈ l, c ≠ [] ∧ c ≠ ['.'] ∧ c ≠ ['.', '.']) :
    ∀ acc, l.foldl (normStep k) acc = acc ++ l := by
  induction l with
  | nil => simp
  | cons c t ih =>
    intro acc
    obtain ⟨h1, h2, h3⟩ := h c (List.mem_cons_self c t)
    have hstep : normStep k acc c = acc ++ [c] := by
      unfold normStep
      rw [if_neg (by simp [h1, h2]), if_pos (Or.inl h3)]
    rw [List.foldl_cons, hstep, ih (fun x hx => h x (List.mem_cons_of_mem _ hx))]
    simp

theorem foldl_normStep_dds (m : Nat) : ∀ j : Nat,
    (List.replicate m ['.', '.']).foldl (normStep 0) (List.replicate j ['.', '.']) =
      List.replicate (j + m) ['.', '.'] := by
  induction m with
  | zero => simp
  | succ n ih =>
    intro j
    rw [List.replicate_succ, List.foldl_cons]
    have hstep : normStep 0 (List.replicate j ['.', '.']) ['.', '.'] =
        List.replicate (j + 1) ['.', '.'] := by
      unfold normStep
      rw [if_neg (by simp)]
      have hcond : (['.', '.'] : List Char) ≠ ['.', '.'] ∨
          (0 = 0 ∧ List.replicate j ['.', '.'] = ([] : List (List Char))) ∨
          (List.replicate j ['.', '.'] : List (List Char)).getLast? = some ['.', '.'] := by
        cases j with
        | zero => exact Or.inr (Or.inl ⟨rfl, rfl⟩)
        | succ i =>
          refine Or.inr (Or.inr ?_)
          rw [List.replicate_succ', List.getLast?_concat]
      rw [if_pos hcond, ← List.replicate_succ']
    rw [hstep, ih (j + 1), show j + 1 + n = j + (n + 1) from by omega]

theorem shaped_nil (k : Nat) : Shaped k [] :=
  ⟨⟨0, [], by simp, by simp, fun _ => rfl⟩, by simp⟩

theorem normStep_shaped (k : Nat) (acc : List (List Char)) (comp : List Char)
    (hs : Shaped k acc) (hcomp : '/' ∉ comp) : Shaped k (normStep k acc comp) := by
  obtain ⟨⟨m, rest, hdecomp, hddrest, hm⟩, hmem⟩ := hs
  unfold normStep
  by_cases h1 : comp = [] ∨ comp = ['.']
  · rw [if_pos h1]; exact ⟨⟨m, rest, hdecomp, hddrest, hm⟩, hmem⟩
  · rw [if_neg h1]
    push_neg at h1
    by_cases h2 : comp ≠ ['.', '.'] ∨ (k = 0 ∧ acc = []) ∨ acc.getLast? = some ['.', '.']
    · rw [if_pos h2]
      constructor
      · by_cases hdd : comp = ['.', '.']
        · rcases h2 with hne | ⟨hk0, hacc⟩ | hlast
          · exact absurd hdd hne
          · exact ⟨1, [], by simp [hacc, hdd], by simp, fun hk => absurd hk0 hk⟩
          · have hrest : rest = [] := by
              by_contra hne
              have heq : acc.getLast? = rest.getLast? := by
                rw [hdecomp]; exact List.getLast?_append_of_ne_nil _ hne
              exact hddrest (List.mem_of_mem_getLast? (by rw [← heq, hlast]; rfl))
            subst hrest
            rw [List.append_nil] at hdecomp
            refine ⟨m + 1, [], by rw [hdecomp, hdd, List.replicate_succ', List.append_nil], by simp, ?_⟩
            intro hk
            rw [hdecomp, hm hk] at hlast
            simp at hlast
        · refine ⟨m, rest ++ [comp], by rw [hdecomp, List.append_assoc], ?_, hm⟩
          intro hmm
          rcases List.mem_append.mp hmm with h | h
          · exact hddrest h
          · exact hdd (List.mem_singleton.mp h).symm
      · intro c hc
        rcases List.mem_append.mp hc with h | h
        · exact hmem c h
        · rw [List.mem_singleton.mp h]; exact ⟨h1.1, h1.2, hcomp⟩
    · rw [if_neg h2]
      push_neg at h2
      by_cases hacc : acc ≠ []
      · rw [if_pos hacc]
        have hrestne : rest ≠ [] := by
          intro hr
          subst hr
          rw [List.append_nil] at hdecomp
          have hm1 : m ≠ 0 := by
            intro h0
            rw [h0] at hdecomp
            exact hacc (by simp [hdecomp])
          obtain ⟨i, rfl⟩ : ∃ i, m = i + 1 := ⟨m - 1, by omega⟩
          rw [hdecomp, List.replicate_succ', List.getLast?_concat] at h2
          exact h2.2.2 rfl
        refine ⟨⟨m, rest.dropLast, ?_, ?_, hm⟩, ?_⟩
        · rw [hdecomp]; exact List.dropLast_append_of_ne_nil _ hrestne
        · intro h; exact hddrest (List.Sublist.mem h (List.dropLast_sublist rest))
        · intro c hc; exact hmem c (List.Sublist.mem hc (List.dropLast_sublist acc))
      · rw [if_neg hacc]; exact ⟨⟨m, rest, hdecomp, hddrest, hm⟩, hmem⟩

theorem foldl_normStep_shaped_pres (k : Nat) (l : List (List Char)) :
    (∀ c ∈ l, '/' ∉ c) → ∀ acc, Shaped k acc → Shaped k (l.foldl (normStep k) acc) := by
  induction l with
  | nil => intro _ acc h; exact h
  | cons c t ih =>
    intro hl acc hacc
    rw [List.foldl_cons]
    exact ih (fun x hx => hl x (List.mem_cons_of_mem _ hx)) _
      (normStep_shaped k acc c hacc (hl c (List.mem_cons_self _ _)))

theorem foldl_normStep_shaped_id (k : Nat) (l : List (List Char)) (h : Shaped k l) :
    l.foldl (normStep k) [] = l := by
  obtain ⟨⟨m, rest, hdecomp, hddrest, hm⟩, hmem⟩ := h
  subst hdecomp
  rw [List.foldl_append]
  have hrest_plain : ∀ c ∈ rest, c ≠ [] ∧ c ≠ ['.'] ∧ c ≠ ['.', '.'] := by
    intro c hc
    obtain ⟨h1, h2, _⟩ := hmem c (List.mem_append_right _ hc)
    exact ⟨h1, h2, fun hdd => hddrest (hdd ▸ hc)⟩
  by_cases hk : k = 0
  · subst hk
    have hdds : (List.replicate m ['.', '.']).foldl (normStep 0) [] =
        List.replicate m ['.', '.'] := by
      have := foldl_normStep_dds m 0
      simpa using this
    rw [hdds, foldl_normStep_plain 0 rest hrest_plain]
  · rw [hm hk]
    simp only [List.replicate, List.foldl_nil, List.nil_append]
    simp [foldl_normStep_plain k rest hrest_plain]

theorem intercalate_head (NC : List (List Char)) (h0 : NC ≠ [])
    (hne : ∀ c ∈ NC, c ≠ [] ∧ '/' ∉ c) :
    ∃ c0 X, List.intercalate ['/'] NC = c0 :: X ∧ c0 ≠ '/' := by
  obtain ⟨h, t, rfl⟩ := List.exists_cons_of_ne_nil h0
  obtain ⟨hh1, hh2⟩ := hne h (List.mem_cons_self h t)
  obtain ⟨c0, h', rfl⟩ := List.exists_cons_of_ne_nil hh1
  have hc0 : c0 ≠ '/' := fun hc => hh2 (by rw [hc]; exact List.mem_cons_self _ _)
  cases t with
  | nil => exact ⟨c0, h', by simp [List.intercalate], hc0⟩
  | cons b t' =>
    refine ⟨c0, h' ++ '/' :: List.intercalate ['/'] (b :: t'), ?_, hc0⟩
    have hstep : List.intercalate ['/'] ((c0 :: h') :: b :: t') =
        (c0 :: h') ++ ['/'] ++ List.intercalate ['/'] (b :: t') := by
      simp [List.intercalate]
    rw [hstep]
    simp

theorem slashesOf_cases (p : List Char) :
    slashesOf p = 0 ∨ slashesOf p = 1 ∨ slashesOf p = 2 := by
  unfold slashesOf
  split
  · exact Or.inr (Or.inr rfl)
  · split
    · exact Or.inr (Or.inl rfl)
    · exact Or.inl rfl

theorem slashesOf_result (k : Nat) (NC : List (List Char))
    (hk : k = 0 ∨ k = 1 ∨ k = 2)
    (hNC : ∀ c ∈ NC, c ≠ [] ∧ '/' ∉ c)
    (h0 : k = 0 → NC ≠ []) :
    slashesOf (List.replicate k '/' ++ List.intercalate ['/'] NC) = k := by
  by_cases hnc : NC = []
  · subst hnc
    rcases hk with h | h | h
    · exact absurd rfl (h0 h)
    · subst h; decide
    · subst h; decide
  · obtain ⟨c0, X, hX, hc0⟩ := intercalate_head NC hnc hNC
    rw [hX]
    rcases hk with h | h | h <;> subst h
    · simp only [List.replicate, List.nil_append]
      unfold slashesOf
      rw [if_neg, if_neg]
      · intro hcontra
        apply hc0
        simpa [List.take_succ_cons] using hcontra
      · intro hcontra
        have h2 := hcontra.1
        rw [List.take_succ_cons] at h2
        exact hc0 (List.cons_eq_cons.mp h2).1
    · rw [show List.replicate 1 '/' ++ c0 :: X = '/' :: c0 :: X from rfl]
      unfold slashesOf
      rw [if_neg, if_pos]
      · rw [List.take_succ_cons, List.take_zero]
      · intro hcontra
        have h2 := hcontra.1
        rw [List.take_succ_cons, List.take_succ_cons] at h2
        exact hc0 (List.cons_eq_cons.mp (List.cons_eq_cons.mp h2).2).1
    · rw [show List.replicate 2 '/' ++ c0 :: X = '/' :: '/' :: c0 :: X from rfl]
      unfold slashesOf
      rw [if_pos]
      refine ⟨by rw [List.take_succ_cons, List.take_succ_cons, List.take_zero], ?_⟩
      intro hcontra
      apply hc0
      simpa [List.take_succ_cons] using hcontra

theorem normpathL_shaped_fixed (k : Nat) (NC : List (List Char))
    (hk : k = 0 ∨ k = 1 ∨ k = 2)
    (hsh : Shaped k NC)
    (h0 : k = 0 → NC ≠ []) :
    normpathL (List.replicate k '/' ++ List.intercalate ['/'] NC) =
      List.replicate k '/' ++ List.intercalate ['/'] NC := by
  have hmem : ∀ c ∈ NC, c ≠ [] ∧ '/' ∉ c :=
    fun c hc => ⟨(hsh.2 c hc).1, (hsh.2 c hc).2.2⟩
  have hLne : List.replicate k '/' ++ List.intercalate ['/'] NC ≠ [] := by
    by_cases hnc : NC = []
    · subst hnc
      rcases hk with h | h | h
      · exact absurd rfl (h0 h)
      · subst h; decide
      · subst h; decide
    · obtain ⟨c0, X, hX, _⟩ := intercalate_head NC hnc hmem
      rw [hX]
      simp
  simp only [normpathL]
  rw [if_neg hLne, slashesOf_result k NC hk hmem h0, splitSep_replicate k _]
  by_cases hnc : NC = []
  · subst hnc
    have hsplit : (List.intercalate ['/'] ([] : List (List Char))).splitOn '/' = [[]] := by
      decide
    rw [hsplit, List.foldl_append, foldl_normStep_rep_nil, List.foldl_cons, normStep_empty,
      List.foldl_nil, if_neg hLne]
  · rw [List.splitOn_intercalate NC '/' (fun l hl => (hmem l hl).2) hnc, List.foldl_append,
      foldl_normStep_rep_nil, foldl_normStep_shaped_id k NC hsh, if_neg hLne]

theorem normpathL_idem (p : List Char) : normpathL (normpathL p) = normpathL p := by
  by_cases hp : p = []
  · subst hp; decide
  · have hk := slashesOf_cases p
    have hsh : Shaped (slashesOf p) ((p.splitOn '/').foldl (normStep (slashesOf p)) []) :=
      foldl_normStep_shaped_pres _ _ (splitSep_nosep p) [] (shaped_nil _)
    have hunf : normpathL p =
        (if (List.replicate (slashesOf p) '/' ++
            List.intercalate ['/'] ((p.splitOn '/').foldl (normStep (slashesOf p)) [])) = []
         then ['.']
         else List.replicate (slashesOf p) '/' ++
            List.intercalate ['/'] ((p.splitOn '/').foldl (normStep (slashesOf p)) [])) := by
      unfold normpathL
      rw [if_neg hp]
    by_cases hj : (List.replicate (slashesOf p) '/' ++
        List.intercalate ['/'] ((p.splitOn '/').foldl (normStep (slashesOf p)) [])) = []
    · rw [hunf, if_pos hj]
      decide
    · rw [hunf, if_neg hj]
      refine normpathL_shaped_fixed _ _ hk hsh ?_
      intro hk0 hnc
      apply hj
      rw [hk0] at hnc ⊢
      rw [hnc]
      rfl

theorem normpath_idem (s : String) : normpath (normpath s) = normpath s := by
  show String.mk (normpathL (String.mk (normpathL s.data)).data) = String.mk (normpathL s.data)
  exact congrArg String.mk (normpathL_idem s.data)

/-! ## Lemmas about the listing pipeline -/

theorem skip_file_false (fs : FS) (p : String) : skip_file fs p = false := by
  unfold skip_file
  split <;> rfl

theorem get_dir_from_path_idem (fs : FS) (p : String)
    (h : fs.isfile (get_dir_from_path fs p) = false) :
    get_dir_from_path fs (get_dir_from_path fs p) = get_dir_from_path fs p := by
  unfold get_dir_from_path at h ⊢
  rw [h]
  simp only [Bool.false_eq_true, if_false]
  exact normpath_idem _

theorem get_listing_ok (fs : FS) (exc : List String) (cur : String) (a b : Nat)
    (hsa : fs.stat (get_dir_from_path fs cur) = some a)
    (hsb : fs.stat (abspathFS fs (joinPath (get_dir_from_path fs cur) pardir)) = some b) :
    get_listing fs exc cur = Except.ok
      ((if a = b then [] else
        [(pardir, abspathFS fs (joinPath (get_dir_from_path fs cur) pardir))]) ++
        childEntries fs cur (excludeLoop exc (fs.glob (get_dir_from_path fs cur)))) := by
  simp only [get_listing]
  rw [hsa, hsb]

theorem mkEntry_mem_childEntries (fs : FS) (cur : String) (l : List String) (c : String)
    (hc : c ∈ l) (hsame : is_same_file fs c cur = false) :
    mkEntry fs c ∈ childEntries fs cur l := by
  unfold childEntries
  refine List.mem_filterMap.mpr ⟨c, hc, ?_⟩
  simp [skip_file_false, hsame]

theorem childEntries_eq_map (fs : FS) (cur : String) (l : List String)
    (h : ∀ x ∈ l, is_same_file fs x cur = false) :
    childEntries fs cur l = l.map (mkEntry fs) := by
  induction l with
  | nil => rfl
  | cons x t ih =>
    simp only [childEntries] at ih ⊢
    rw [List.filterMap_cons]
    have hx : (if skip_file fs x then none
        else if is_same_file fs x cur then none else some (mkEntry fs x)) =
        some (mkEntry fs x) := by
      simp [skip_file_false, h x (List.mem_cons_self x t)]
    rw [hx, ih (fun y hy => h y (List.mem_cons_of_mem _ hy))]
    rfl

theorem childEntries_append (fs : FS) (cur : String) (l1 l2 : List String) :
    childEntries fs cur (l1 ++ l2) = childEntries fs cur l1 ++ childEntries fs cur l2 := by
  unfold childEntries
  exact List.filterMap_append l1 l2 _

theorem childEntries_cons_same (fs : FS) (cur : String) (c : String) (l : List String)
    (hc : is_same_file fs c cur = true) :
    childEntries fs cur (c :: l) = childEntries fs cur l := by
  simp only [childEntries]
  rw [List.filterMap_cons]
  have hx : (if skip_file fs c then none
      else if is_same_file fs c cur then none else some (mkEntry fs c)) = none := by
    simp [skip_file_false, hc]
  rw [hx]

theorem childEntries_labels_ne_pardir (fs : FS) (cur : String) (l : List String)
    (h : ∀ fp ∈ l, basenameS fp ≠ pardir) :
    ∀ e ∈ childEntries fs cur l, e.1 ≠ pardir := by
  intro e he
  obtain ⟨fp, hfp, hmap⟩ := List.mem_filterMap.mp he
  rw [show skip_file fs fp = false from skip_file_false fs fp] at hmap
  simp only [Bool.false_eq_true, if_false] at hmap
  by_cases hs : is_same_file fs fp cur = true
  · rw [hs] at hmap
    simp at hmap
  · rw [Bool.not_eq_true] at hs
    rw [hs] at hmap
    simp only [Bool.false_eq_true, if_false, Option.some.injEq] at hmap
    subst hmap
    unfold mkEntry
    by_cases hdir : fs.isdir fp = true
    · rw [hdir]
      simp only [if_true]
      intro hcontra
      have hdata : ((basenameS fp).data ++ ("/" : String).data).getLast? =
          (pardir : String).data.getLast? := by
        rw [← String.data_append, hcontra]
      rw [List.getLast?_concat] at hdata
      exact absurd hdata (by decide)
    · rw [Bool.not_eq_true] at hdir
      rw [hdir]
      simp only [Bool.false_eq_true, if_false]
      exact h fp hfp

/-! ## Claim theorems -/

/-- C1, counterexample: in the listing of `/d` (holding the single file
`/d/a.txt`), the entry built for the file child is `("a.txt", "/d")` — the
containing directory — so the pair `(basename c, c)` the claim predicts,
`("a.txt", "/d/a.txt")`, is not in the listing even though the child is a
file enumerated by `glob`. -/
theorem c1_counterexample :
    fsA.isfile "/d/a.txt" = true ∧
    "/d/a.txt" ∈ fsA.glob "/d" ∧
    get_listing fsA [] "/d" = Except.ok [(pardir, "/"), ("a.txt", "/d")] ∧
    (basenameS "/d/a.txt", "/d/a.txt") ∉ [((pardir : String), "/"), ("a.txt", "/d")] := by
  refine ⟨by decide, by decide, by decide, by decide⟩

/-- C1, amended: the entry built for a file child `c` is
`(basename c, get_dir_from_path c)` — the containing directory, not `c`
itself — and `get_path` applied to that entry recovers `c`, so opening
still resolves to the file's own path. -/
theorem c1_file_child_entry (fs : FS) (exc : List String) (cur c n dstr : String) (a b : Nat)
    (hsa : fs.stat (get_dir_from_path fs cur) = some a)
    (hsb : fs.stat (abspathFS fs (joinPath (get_dir_from_path fs cur) pardir)) = some b)
    (hmem : c ∈ excludeLoop exc (fs.glob (get_dir_from_path fs cur)))
    (hsame : is_same_file fs c cur = false)
    (hdir : fs.isdir c = false)
    (hb : basenameS c = n)
    (hd : get_dir_from_path fs c = dstr)
    (hn1 : n ≠ pardir)
    (hn2 : strEndsSlash n = false)
    (hn3 : strStartsSlash n = false)
    (hdd : dstr ≠ "")
    (hde : strEndsSlash dstr = false)
    (hjoin : dstr ++ "/" ++ n = c) :
    ∃ L, get_listing fs exc cur = Except.ok L ∧ (n, dstr) ∈ L ∧
      get_path (n, dstr) = c ∧ dstr ≠ c := by
  refine ⟨_, get_listing_ok fs exc cur a b hsa hsb, ?_, ?_, ?_⟩
  · apply List.mem_append_right
    have hmk : mkEntry fs c = (n, dstr) := by
      unfold mkEntry
      rw [hdir]
      simp only [Bool.false_eq_true, if_false]
      rw [hb, hd]
    rw [← hmk]
    exact mkEntry_mem_childEntries fs cur _ c hmem hsame
  · unfold get_path
    rw [if_neg (by simp [hn1, hn2])]
    unfold joinPath
    rw [if_neg (by simp [hn3]), if_neg (by simp [hdd, hde])]
    exact hjoin
  · intro hcontra
    have hlen : (dstr ++ "/" ++ n).length = c.length := by rw [hjoin]
    rw [String.length_append, String.length_append] at hlen
    have hlc : dstr.length = c.length := congrArg String.length hcontra
    have hone : ("/" : String).length = 1 := rfl
    omega

/-- C1, witness for the amended theorem at the concrete filesystem `fsA`. -/
theorem c1_witness :
    ∃ L, get_listing fsA [] "/d" = Except.ok L ∧ ("a.txt", "/d") ∈ L ∧
      get_path ("a.txt", "/d") = "/d/a.txt" ∧ "/d" ≠ "/d/a.txt" :=
  c1_file_child_entry fsA [] "/d" "/d/a.txt" "a.txt" "/d" 1 0 (by decide) (by decide)
    (by decide) (by decide) (by decide) (by decide) (by decide) (by decide) (by decide)
    (by decide) (by decide) (by decide) (by decide)

/-- C2: the claim that every matching child is filtered — including
adjacent matches — fails: with exclusion set `{*.exe}` and enumeration
order `a.exe, b.exe, c.txt`, removing `a.exe` mid-iteration shifts the
list so the loop never visits `b.exe`, whose pattern is `*.exe`, and the
listing still contains its entry. The spec itself flags the
mutate-while-iterating pass as a latent bug, so the code, not the claim,
is wrong. -/
theorem c2_adjacent_exclusion_escapes :
    extPat "/d/b.exe" = "*.exe" ∧
    excludeLoop ["*.exe"] ["/d/a.exe", "/d/b.exe", "/d/c.txt"] =
      ["/d/b.exe", "/d/c.txt"] ∧
    get_listing fsB ["*.exe"] "/d" =
      Except.ok [(pardir, "/"), ("b.exe", "/d"), ("c.txt", "/d")] := by
  refine ⟨by decide, by decide, by decide⟩

/-- C3: with both `os.stat` probes succeeding, a non-root directory's
listing starts with the parent entry `(pardir, parent)`, and a filesystem
root (same stat identity as its parent) produces a listing with no
parent-labelled entry at all. -/
theorem c3_parent_entry (fs : FS) (exc : List String) (cur : String) (a b : Nat)
    (hsa : fs.stat (get_dir_from_path fs cur) = some a)
    (hsb : fs.stat (abspathFS fs (joinPath (get_dir_from_path fs cur) pardir)) = some b)
    (hbn : ∀ fp ∈ excludeLoop exc (fs.glob (get_dir_from_path fs cur)),
      basenameS fp ≠ pardir) :
    (a ≠ b →
      get_listing fs exc cur = Except.ok
        ((pardir, abspathFS fs (joinPath (get_dir_from_path fs cur) pardir)) ::
          childEntries fs cur (excludeLoop exc (fs.glob (get_dir_from_path fs cur))))) ∧
    (a = b →
      get_listing fs exc cur = Except.ok
        (childEntries fs cur (excludeLoop exc (fs.glob (get_dir_from_path fs cur)))) ∧
      ∀ e ∈ childEntries fs cur (excludeLoop exc (fs.glob (get_dir_from_path fs cur))),
        e.1 ≠ pardir) := by
  constructor
  · intro hne
    rw [get_listing_ok fs exc cur a b hsa hsb, if_neg hne]
    rfl
  · intro heq
    refine ⟨by rw [get_listing_ok fs exc cur a b hsa hsb, if_pos heq]; rfl,
      childEntries_labels_ne_pardir fs cur _ hbn⟩

/-- C3, witness: `/d` lists with the parent entry `("..", "/")` first;
the root `/` (whose parent resolves to itself) lists without any parent
entry. -/
theorem c3_witness :
    get_listing fsA [] "/d" = Except.ok [(pardir, "/"), ("a.txt", "/d")] ∧
    get_listing fsA [] "/" = Except.ok [] := by
  have h1 := c3_parent_entry fsA [] "/d" 1 0 (by decide) (by decide) (by decide)
  have h2 := c3_parent_entry fsA [] "/" 0 0 (by decide) (by decide) (by decide)
  exact ⟨(h1.1 (by decide)).trans (by decide), ((h2.2 rfl).1).trans (by decide)⟩

/-- C4: for a file `f` (stat-distinct from every sibling and whose
directory is `d`), the listing computed for `f` equals the listing
computed for `d` with exactly the entry of the unique child that is
same-file as `f` removed. -/
theorem c4_file_listing_is_dir_listing_minus_self (fs : FS) (exc : List String)
    (f : String) (pre post : List String) (c : String) (a b : Nat)
    (hf : fs.isfile f = true)
    (hd : fs.isfile (get_dir_from_path fs f) = false)
    (hsa : fs.stat (get_dir_from_path fs f) = some a)
    (hsb : fs.stat (abspathFS fs (joinPath (get_dir_from_path fs f) pardir)) = some b)
    (hsplit : excludeLoop exc (fs.glob (get_dir_from_path fs f)) = pre ++ c :: post)
    (hc : is_same_file fs c f = true)
    (hpre : ∀ x ∈ pre, is_same_file fs x f = false)
    (hpost : ∀ x ∈ post, is_same_file fs x f = false)
    (hnd : ∀ x ∈ pre ++ c :: post, is_same_file fs x (get_dir_from_path fs f) = false) :
    get_listing fs exc (get_dir_from_path fs f) = Except.ok
      ((if a = b then [] else
        [(pardir, abspathFS fs (joinPath (get_dir_from_path fs f) pardir))]) ++
        (pre.map (mkEntry fs) ++ mkEntry fs c :: post.map (mkEntry fs))) ∧
    get_listing fs exc f = Except.ok
      ((if a = b then [] else
        [(pardir, abspathFS fs (joinPath (get_dir_from_path fs f) pardir))]) ++
        (pre.map (mkEntry fs) ++ post.map (mkEntry fs))) := by
  have hgg : get_dir_from_path fs (get_dir_from_path fs f) = get_dir_from_path fs f :=
    get_dir_from_path_idem fs f hd
  constructor
  · rw [get_listing_ok fs exc (get_dir_from_path fs f) a b (by rw [hgg]; exact hsa)
      (by rw [hgg]; exact hsb)]
    rw [hgg, hsplit, childEntries_eq_map fs _ _ hnd]
    simp
  · rw [get_listing_ok fs exc f a b hsa hsb, hsplit, childEntries_append,
      childEntries_cons_same fs f c post hc, childEntries_eq_map fs f pre hpre,
      childEntries_eq_map fs f post hpost]

/-- C4, witness: in `/d` holding `a.txt`, `f.txt`, `z.txt`, the listing
for the file `/d/f.txt` is the listing for `/d` minus the `f.txt` entry. -/
theorem c4_witness :
    get_listing fsD [] "/d" =
      Except.ok [(pardir, "/"), ("a.txt", "/d"), ("f.txt", "/d"), ("z.txt", "/d")] ∧
    get_listing fsD [] "/d/f.txt" =
      Except.ok [(pardir, "/"), ("a.txt", "/d"), ("z.txt", "/d")] := by
  have h := c4_file_listing_is_dir_listing_minus_self fsD [] "/d/f.txt" ["/d/a.txt"]
    ["/d/z.txt"] "/d/f.txt" 1 0 (by decide) (by decide) (by decide) (by decide)
    (by decide) (by decide) (by decide) (by decide) (by decide)
  have hgd : get_dir_from_path fsD "/d/f.txt" = "/d" := by decide
  rw [hgd] at h
  exact ⟨h.1.trans (by decide), h.2.trans (by decide)⟩

/-- C5: the claim says `track_calling_view` fails soft to `None` on a
window with no active tab; in fact `window.active_view()` is `None` there
and the source dereferences it unconditionally, raising `AttributeError`
before `run` could fall back to `os.getcwd()`. The fallback only works
when an active view exists but has no file name. -/
theorem c5_no_tab_raises :
    noTabsWin.num_views = 0 ∧
    noTabsWin.active_view = none ∧
    track_calling_view noTabsWin initState = Except.error PyErr.attributeError ∧
    run_current_file noTabsWin initState "/cwd" = Except.error PyErr.attributeError ∧
    run_current_file unsavedWin initState "/cwd" =
      Except.ok (⟨none, some 7, (0, 0), some false, false⟩, "/cwd") := by
  refine ⟨rfl, rfl, rfl, rfl, by decide⟩

/-- C6: the claim says `skip_file` returns `True` exactly for children
whose probe fails and that such children are omitted; in fact
`os.path.exists` swallows the `OSError` the author meant to catch, so
`skip_file` is constantly `False` and a stat-failing child (here
`/d/hidden`) still appears in the listing. -/
theorem c6_probe_failure_not_skipped :
    (∀ (fs : FS) (p : String), skip_file fs p = false) ∧
    fsC.stat "/d/hidden" = none ∧
    get_listing fsC [] "/d" = Except.ok [(pardir, "/"), ("hidden", "/d/hidden")] := by
  refine ⟨fun fs p => skip_file_false fs p, by decide, by decide⟩

/-- C7, counterexample: committing index 0 (the file entry `a.txt`) in the
quick panel emits only a permanent `open_file` — no `set_view_index` at
the slot `currentInsertionSlot() + 1 = (1, 4)` the claim requires. -/
theorem c7_counterexample :
    get_current_view_index sessionState = (1, 3) ∧
    (open_selected_file fsA sessionState [("a.txt", "/d")] 0).2 =
      [Effect.openFile "/d/a.txt" false] ∧
    Effect.setViewIndex 1 4 ∉ (open_selected_file fsA sessionState [("a.txt", "/d")] 0).2 := by
  refine ⟨by decide, by decide, by decide⟩

/-- C7, amended: a quick-panel commit on a file entry opens it as a
permanent tab and resets the session with no repositioning; the
slot-plus-one placement (and the reuse condition for a file already open
as the active group's transient view) happens only in the auxiliary
quick-open command. -/
theorem c7_commit_vs_quick_open :
    (∀ (fs : FS) (s : HelperState) (entries : List (String × String)) (i : Int),
      0 ≤ i → fs.isfile (get_path (entries.getD i.toNat ("", ""))) = true →
      open_selected_file fs s entries i =
        (reset s, [Effect.openFile (get_path (entries.getD i.toNat ("", ""))) false])) ∧
    (∀ (fs : FS) (w : QWindow) (s : HelperState) (fp : String),
      s.preview_file_path = some fp → fp ≠ "" → fs.isfile fp = true →
      (w.find_open_file fp = w.transient_view_in_group w.active_group ∨
        w.find_open_file fp = none) →
      quick_open_run fs w s =
        (s, [Effect.openFile fp false,
             Effect.setViewIndex (get_current_view_index s).1
               ((get_current_view_index s).2 + 1)])) := by
  constructor
  · intro fs s entries i hi hf
    have hEq : open_selected_file fs s entries i =
        (if fs.isfile (get_path (entries.getD i.toNat ("", ""))) then
          (reset s, [Effect.openFile (get_path (entries.getD i.toNat ("", ""))) false])
         else
          (s, show_calling_view s ++
            [Effect.scheduleNavigate (get_path (entries.getD i.toNat ("", "")))])) := by
      unfold open_selected_file
      rw [if_neg (by omega)]
    rw [hEq, hf]
    simp
  · intro fs w s fp hfp hne hf hcond
    unfold quick_open_run
    rw [hfp]
    simp [hne, hf, if_pos hcond]

/-- C7, witness for the amended theorem: the panel commit at `fsA` emits
the bare permanent open; the quick-open command at the same state emits
the open plus the `(1, 4)` placement. -/
theorem c7_witness :
    open_selected_file fsA sessionState [("a.txt", "/d")] 0 =
      (reset sessionState, [Effect.openFile "/d/a.txt" false]) ∧
    quick_open_run fsA qWinA sessionState =
      (sessionState, [Effect.openFile "/d/a.txt" false, Effect.setViewIndex 1 4]) := by
  constructor
  · have h := c7_commit_vs_quick_open.1 fsA sessionState [("a.txt", "/d")] 0
      (by decide) (by decide)
    exact h.trans (by decide)
  · have h := c7_commit_vs_quick_open.2 fsA qWinA sessionState "/d/a.txt"
      rfl (by decide) (by decide) (Or.inr rfl)
    exact h.trans (by decide)

/-- C8: cancelling (`selected_index = -1`) at any helper state — hence at
any recursion depth — leaves the preview path `None` and the
auxiliary-command flag disabled, and emits exactly the origin-restoring
effect: close the frontmost tab when the session began with zero open
tabs, else focus the origin view. -/
theorem c8_cancel_restores_and_resets (fs : FS) (s : HelperState)
    (entries : List (String × String)) :
    (open_selected_file fs s entries (-1)).1.preview_file_path = none ∧
    (open_selected_file fs s entries (-1)).1.file_navigation_active = false ∧
    (open_selected_file fs s entries (-1)).2 =
      (if pyTruthy s.calling_view_is_empty then [Effect.closeFile]
       else [Effect.focusView s.calling_view]) := by
  unfold open_selected_file
  rw [if_pos (by norm_num)]
  exact ⟨rfl, rfl, rfl⟩

/-- C9: the quick-open command is a no-op — state unchanged, no effects —
when the stored preview path is `None` or is not an existing file. -/
theorem c9_quick_open_noop (fs : FS) (w : QWindow) (s : HelperState)
    (h : s.preview_file_path = none ∨
      ∃ fp, s.preview_file_path = some fp ∧ fs.isfile fp = false) :
    quick_open_run fs w s = (s, []) := by
  unfold quick_open_run
  rcases h with h | ⟨fp, hfp, hfile⟩
  · rw [h]
  · rw [hfp]
    by_cases he : fp = ""
    · simp [he]
    · simp [he, hfile]

/-- C9, witness: quick-open on the initial state (no preview) returns the
state unchanged and no effects. -/
theorem c9_witness : quick_open_run fsA qWinA initState = (initState, []) :=
  c9_quick_open_noop fsA qWinA initState (Or.inl rfl)

/-- C10, counterexample: `get_dir_from_path` is not idempotent. For the
path `"f/"` naming a regular file with a trailing slash, `os.path.isfile`
answers `False` (the stat fails with `ENOTDIR`), so one application
yields `normpath "f/" = "f"`; but `"f"` is a file, so the second
application yields `"."`. -/
theorem c10_counterexample :
    get_dir_from_path fsX (get_dir_from_path fsX "f/") ≠ get_dir_from_path fsX "f/" := by
  decide

/-- C10, amended: `get_dir_from_path` is idempotent at every path whose
first resolution is not itself regarded as a file — the exact condition
the counterexample violates. -/
theorem c10_idem_when_result_not_file (fs : FS) (p : String)
    (h : fs.isfile (get_dir_from_path fs p) = false) :
    get_dir_from_path fs (get_dir_from_path fs p) = get_dir_from_path fs p :=
  get_dir_from_path_idem fs p h

/-- C10, witness for the amended theorem: resolving `/d/a.txt` gives
`/d`, which is not a file, and a second resolution leaves it unchanged. -/
theorem c10_witness :
    get_dir_from_path fsA (get_dir_from_path fsA "/d/a.txt") =
      get_dir_from_path fsA "/d/a.txt" :=
  c10_idem_when_result_not_file fsA "/d/a.txt" (by decide)

end FileNav

/-!
Model validation: the embedded `posixpath` functions and the listing
pipeline, evaluated on concrete inputs, agree with CPython's behavior on
the same inputs.
-/

example : FileNav.normpath "f/" = "f" := by decide
example : FileNav.normpath "" = "." := by decide
example : FileNav.normpath "/d/.." = "/" := by decide
example : FileNav.normpath "/.." = "/" := by decide
example : FileNav.normpath "//a/b/../c" = "//a/c" := by decide
example : FileNav.dirnameS "/d/a.txt" = "/d" := by decide
example : FileNav.dirnameS "f" = "" := by decide
example : FileNav.basenameS "/d/a.txt" = "a.txt" := by decide
example : FileNav.splitextExtS "/d/a.exe" = ".exe" := by decide
example : FileNav.splitextExtS ".bashrc" = "" := by decide
example : FileNav.extPat "/d/B.EXE" = "*.exe" := by decide
example : FileNav.joinPath "/d" ".." = "/d/.." := by decide
example : FileNav.joinPath "/" ".." = "/.." := by decide
example : FileNav.excludeLoop ["*.exe"] ["/d/a.exe", "/d/b.exe", "/d/c.txt"] =
    ["/d/b.exe", "/d/c.txt"] := by decide
example : FileNav.get_listing FileNav.fsA [] "/d" =
    Except.ok [(FileNav.pardir, "/"), ("a.txt", "/d")] := by decide
example : FileNav.get_listing FileNav.fsB ["*.exe"] "/d" =
    Except.ok [(FileNav.pardir, "/"), ("b.exe", "/d"), ("c.txt", "/d")] := by decide
example : FileNav.get_listing FileNav.fsC [] "/d" =
    Except.ok [(FileNav.pardir, "/"), ("hidden", "/d/hidden")] := by decide
example : FileNav.get_listing FileNav.fsD [] "/d/f.txt" =
    Except.ok [(FileNav.pardir, "/"), ("a.txt", "/d"), ("z.txt", "/d")] := by decide
example : FileNav.get_listing FileNav.fsD [] "/d" =
    Except.ok [(FileNav.pardir, "/"), ("a.txt", "/d"), ("f.txt", "/d"), ("z.txt", "/d")] := by decide
example : FileNav.get_dir_from_path FileNav.fsX "f/" = "f" := by decide
example : FileNav.get_dir_from_path FileNav.fsX "f" = "." := by decide
example : FileNav.get_listing FileNav.fsA [] "/" =
    Except.ok [] := by decide
